import Mathlib

/-!
Verification of the loadBalancer repository's core against its specification.

The development shallowly embeds the Go sources:
  - package ratelimiter: token-bucket rate limiting (TokenBucket, RateLimiter);
  - package balancer: round-robin backend selection over a uint32 cursor;
  - package proxy: client-identity extraction and the failure-response paths.

Modelling conventions:
  - Go `time.Time` values and durations are exact rational numbers of seconds;
  - the `float64` arithmetic of TokenBucket.refill is modelled exactly over ℚ,
    with Go's `int(·)` conversion as truncation toward zero;
  - Go machine integers that can overflow in reach of the claims (the
    balancer's uint32 cursor) are naturals reduced modulo 2 ^ 32; token counts
    are unbounded integers, as no claim drives them near 2 ^ 63;
  - mutation becomes explicit state passing; each Go method returns its
    updated receiver.
-/

namespace LoadBalancer

/-- Truncation of a rational toward zero: the semantics of Go's `int(x)`
conversion applied to the `float64` product in `TokenBucket.refill`.
Defined through `Int.tdiv` (truncated division) so that it evaluates inside
the kernel; `goTrunc_eq_floor` relates it to `⌊·⌋` on nonnegative input. -/
def goTrunc (q : ℚ) : Int :=
  q.num.tdiv q.den

/-- Embeds Go struct `TokenBucket` (ratelimiter package). Field names follow
the source; `mu` (a mutex) has no sequential content and is dropped. -/
structure TokenBucket where
  Capacity : Int
  Tokens : Int
  RefillRate : Int
  lastRefill : ℚ
  lastSeen : ℚ
deriving DecidableEq

/-- Embeds `NewTokenBucket`: the bucket starts full, with both timestamps at
the creation instant (`time.Now()` becomes the explicit argument `now`). -/
def NewTokenBucket (capacity refillRate : Int) (now : ℚ) : TokenBucket :=
  { Capacity := capacity
    Tokens := capacity
    RefillRate := refillRate
    lastRefill := now
    lastSeen := now }

/-- Embeds `TokenBucket.refill`: add `int(elapsed * float64(RefillRate))`
tokens, capped at capacity, advancing `lastRefill` only when at least one
whole token was added. -/
def TokenBucket.refill (tb : TokenBucket) (now : ℚ) : TokenBucket :=
  let elapsed : ℚ := now - tb.lastRefill
  let tokensToAdd : Int := goTrunc (elapsed * (tb.RefillRate : ℚ))
  if tokensToAdd > 0 then
    { tb with Tokens := min tb.Capacity (tb.Tokens + tokensToAdd), lastRefill := now }
  else
    tb

/-- Embeds `TokenBucket.Allow`: refill, stamp `lastSeen`, then consume one
token when available. Returns the updated bucket and the admission verdict. -/
def TokenBucket.Allow (tb : TokenBucket) (now : ℚ) : TokenBucket × Bool :=
  let tb1 := tb.refill now
  let tb2 := { tb1 with lastSeen := now }
  if tb2.Tokens > 0 then
    ({ tb2 with Tokens := tb2.Tokens - 1 }, true)
  else
    (tb2, false)

/-- Runs `TokenBucket.Allow` once per entry of a list of call instants,
threading the bucket state; collects the verdicts in call order. -/
def allowTimes (tb : TokenBucket) : List ℚ → TokenBucket × List Bool
  | [] => (tb, [])
  | t :: ts =>
    let (tb1, ok) := tb.Allow t
    let (tb2, oks) := allowTimes tb1 ts
    (tb2, ok :: oks)

theorem goTrunc_eq_floor (q : ℚ) (h : 0 ≤ q) : goTrunc q = ⌊q⌋ := by
  rw [goTrunc, Rat.floor_def]
  exact Int.tdiv_eq_ediv (Rat.num_nonneg.mpr h) (Int.natCast_nonneg _)

theorem goTrunc_zero : goTrunc 0 = 0 := by decide

theorem refill_at_lastRefill (tb : TokenBucket) : tb.refill tb.lastRefill = tb := by
  unfold TokenBucket.refill
  simp [goTrunc]

/-- Helper: the refill branch that adds tokens, characterized through `⌊·⌋`. -/
theorem refill_pos_char (tb : TokenBucket) (now : ℚ)
    (hq : 0 ≤ (now - tb.lastRefill) * (tb.RefillRate : ℚ))
    (hpos : 0 < ⌊(now - tb.lastRefill) * (tb.RefillRate : ℚ)⌋) :
    tb.refill now = { tb with
      Tokens := min tb.Capacity
        (tb.Tokens + ⌊(now - tb.lastRefill) * (tb.RefillRate : ℚ)⌋),
      lastRefill := now } := by
  simp only [TokenBucket.refill]
  rw [goTrunc_eq_floor _ hq, if_pos hpos]

/-- Helper: the refill branch that adds no token leaves the bucket unchanged. -/
theorem refill_zero_char (tb : TokenBucket) (now : ℚ)
    (hq : 0 ≤ (now - tb.lastRefill) * (tb.RefillRate : ℚ))
    (hzero : ⌊(now - tb.lastRefill) * (tb.RefillRate : ℚ)⌋ = 0) :
    tb.refill now = tb := by
  simp only [TokenBucket.refill]
  rw [goTrunc_eq_floor _ hq, if_neg (by omega)]

/-- Helper: an admission check returns `true` as soon as the refilled bucket
holds a token. -/
theorem Allow_true_of_refill_pos (tb : TokenBucket) (now : ℚ)
    (hpos : 0 < (tb.refill now).Tokens) : (tb.Allow now).2 = true := by
  unfold TokenBucket.Allow
  simp [hpos]

/-- C4: on every admission check the refill step computes
`tokensToAdd = ⌊elapsed * refillRate⌋` with `elapsed = now - lastRefill` in
fractional seconds; a positive count is added (capped at capacity) and
`lastRefill` advances to `now`; a zero count leaves the whole bucket,
`lastRefill` included, unchanged. Stated for a non-decreasing clock and a
nonnegative refill rate, where Go's `int(·)` truncation agrees with `⌊·⌋`. -/
theorem c4_refill_step (tb : TokenBucket) (now : ℚ)
    (h_elapsed : tb.lastRefill ≤ now) (h_rate : 0 ≤ tb.RefillRate) :
    0 ≤ ⌊(now - tb.lastRefill) * (tb.RefillRate : ℚ)⌋
    ∧ (0 < ⌊(now - tb.lastRefill) * (tb.RefillRate : ℚ)⌋ →
        tb.refill now = { tb with
          Tokens := min tb.Capacity
            (tb.Tokens + ⌊(now - tb.lastRefill) * (tb.RefillRate : ℚ)⌋),
          lastRefill := now })
    ∧ (⌊(now - tb.lastRefill) * (tb.RefillRate : ℚ)⌋ = 0 →
        tb.refill now = tb) := by
  have hq : 0 ≤ (now - tb.lastRefill) * (tb.RefillRate : ℚ) :=
    mul_nonneg (by linarith) (by exact_mod_cast h_rate)
  refine ⟨Int.floor_nonneg.mpr hq, ?_, ?_⟩
  · exact refill_pos_char tb now hq
  · exact refill_zero_char tb now hq

/-- Witness for C4: a bucket with capacity 5, 2 tokens, rate 1, last refilled
at time 0, checked at time 3/2, gains exactly 1 = ⌊3/2⌋ token. -/
theorem c4_refill_step_witness :
    TokenBucket.refill ⟨5, 2, 1, 0, 0⟩ (3/2) = ⟨5, 3, 1, 3/2, 0⟩ := by
  have h := c4_refill_step ⟨5, 2, 1, 0, 0⟩ (3/2) (by norm_num) (by norm_num)
  have hfl : ⌊((3:ℚ)/2 - 0) * ((1:Int) : ℚ)⌋ = 1 := by
    norm_num [Int.floor_eq_iff]
  rw [h.2.1 (by rw [hfl]; norm_num)]
  rw [hfl]
  norm_num [min_def]

/-- C3: a fresh bucket with capacity 5 and refill rate 1 admits exactly the
first 5 immediate calls, denies the 6th, and admits again once at least
1.2 seconds have elapsed. -/
theorem c3_bucket_admission (t0 d : ℚ) (hd : 6/5 ≤ d) :
    (allowTimes (NewTokenBucket 5 1 t0) [t0, t0, t0, t0, t0, t0]).2
        = [true, true, true, true, true, false]
    ∧ (((allowTimes (NewTokenBucket 5 1 t0) [t0, t0, t0, t0, t0, t0]).1).Allow
        (t0 + d)).2 = true := by
  have hstate : allowTimes (NewTokenBucket 5 1 t0) [t0, t0, t0, t0, t0, t0]
      = (⟨5, 0, 1, t0, t0⟩, [true, true, true, true, true, false]) := by
    norm_num [allowTimes, TokenBucket.Allow, TokenBucket.refill, NewTokenBucket, goTrunc]
  refine ⟨by rw [hstate], ?_⟩
  rw [hstate]
  apply Allow_true_of_refill_pos
  have hsimp : (t0 + d - t0) * ((1:Int) : ℚ) = d := by push_cast; ring
  have hq : (0:ℚ) ≤ (t0 + d - t0) * ((1:Int) : ℚ) := by rw [hsimp]; linarith
  have hfl : 0 < ⌊(t0 + d - t0) * ((1:Int) : ℚ)⌋ := by
    rw [hsimp]
    have h1 : (1:ℤ) ≤ ⌊d⌋ := Int.le_floor.mpr (by push_cast; linarith)
    omega
  have htok : (TokenBucket.refill ⟨5, 0, 1, t0, t0⟩ (t0 + d)).Tokens
      = min 5 (0 + ⌊(t0 + d - t0) * ((1:Int) : ℚ)⌋) := by
    rw [refill_pos_char ⟨5, 0, 1, t0, t0⟩ (t0 + d) hq hfl]
  rw [htok]
  omega

/-- Witness for C3 at the concrete start time 0 and wait 2 seconds. -/
theorem c3_bucket_admission_witness :
    (allowTimes (NewTokenBucket 5 1 0) [0, 0, 0, 0, 0, 0]).2
        = [true, true, true, true, true, false]
    ∧ (((allowTimes (NewTokenBucket 5 1 0) [0, 0, 0, 0, 0, 0]).1).Allow
        ((0:ℚ) + 2)).2 = true :=
  c3_bucket_admission 0 2 (by norm_num)

/-- The state invariant of a token bucket: the token count stays between 0
and the capacity. -/
def TBInv (tb : TokenBucket) : Prop :=
  0 ≤ tb.Tokens ∧ tb.Tokens ≤ tb.Capacity

/-- Helper: one refill step preserves the token-count invariant. -/
theorem refill_TBInv (tb : TokenBucket) (now : ℚ) (h : TBInv tb) :
    TBInv (tb.refill now) := by
  obtain ⟨h0, h1⟩ := h
  simp only [TokenBucket.refill]
  split
  · next hpos =>
    constructor
    · simp only []
      omega
    · simp only []
      omega
  · exact ⟨h0, h1⟩

/-- Helper: one admission check preserves the token-count invariant. -/
theorem Allow_TBInv (tb : TokenBucket) (now : ℚ) (h : TBInv tb) :
    TBInv ((tb.Allow now).1) := by
  have hr := refill_TBInv tb now h
  obtain ⟨h0, h1⟩ := hr
  simp only [TokenBucket.Allow]
  split
  · next hpos =>
    exact ⟨by simp only []; omega, by simp only []; omega⟩
  · exact ⟨h0, h1⟩

/-- Helper: any sequence of admission checks preserves the invariant. -/
theorem allowTimes_TBInv (ts : List ℚ) : ∀ tb : TokenBucket, TBInv tb →
    TBInv ((allowTimes tb ts).1) := by
  induction ts with
  | nil => intro tb h; exact h
  | cons t ts ih =>
    intro tb h
    simp only [allowTimes]
    exact ih _ (Allow_TBInv tb t h)

/-- C8: a bucket created with nonnegative capacity satisfies
`0 ≤ tokens ≤ capacity`, and the invariant is preserved by every admission
check (refill step included), for any sequence of calls at any instants. -/
theorem c8_bucket_invariant :
    (∀ (capacity refillRate : Int) (t0 : ℚ), 0 ≤ capacity →
      TBInv (NewTokenBucket capacity refillRate t0))
    ∧ (∀ (tb : TokenBucket) (ts : List ℚ), TBInv tb →
      TBInv ((allowTimes tb ts).1)) := by
  constructor
  · intro capacity refillRate t0 hc
    exact ⟨hc, le_refl _⟩
  · intro tb ts h
    exact allowTimes_TBInv ts tb h

/-! ## Round-robin balancer (package balancer) -/

/-- The modulus of Go's `uint32`, the type of the balancer's shared cursor. -/
def U32 : Nat := 2 ^ 32

/-- Embeds Go struct `Backend`: the upstream address (its URL rendered as a
string, the form `MarkBackendUnhealthy` compares) and the atomic alive flag. -/
structure Backend where
  Address : String
  IsAlive : Bool
deriving DecidableEq

/-- Embeds Go struct `RoundRobinLoadBalancer`: the fixed backend slice and the
uint32 round-robin cursor (health-check plumbing and the logger carry no
sequential content and are dropped). The cursor is kept below `U32` by the
wrap applied at each increment. -/
structure RoundRobinLoadBalancer where
  backends : List Backend
  currentIndex : Nat
deriving DecidableEq

/-- Embeds the selection loop of `NextAvailableBackend`: each attempt
increments the cursor (wrapping as uint32 addition does), indexes the slice
at `cursor mod total`, and returns the candidate when alive; at most `fuel`
attempts. The Go loop runs `attempt < total` times, so it is entered with
`fuel = total`. -/
def nextAvailLoop (backends : List Backend) (total : Nat) :
    Nat → Nat → Nat × Option Backend
  | cursor, 0 => (cursor, none)
  | cursor, fuel + 1 =>
    let newCursor := (cursor + 1) % U32
    let index := newCursor % total
    match backends.get? index with
    | none => (newCursor, none)
    | some candidate =>
      if candidate.IsAlive then (newCursor, some candidate)
      else nextAvailLoop backends total newCursor fuel

/-- Embeds `NextAvailableBackend`: run the selection loop for `total`
attempts; returns the updated balancer (the advanced cursor) and the chosen
backend, `none` when no alive backend was found. -/
def NextAvailableBackend (lb : RoundRobinLoadBalancer) :
    RoundRobinLoadBalancer × Option Backend :=
  let total := lb.backends.length
  let (cursor, result) := nextAvailLoop lb.backends total lb.currentIndex total
  ({ lb with currentIndex := cursor }, result)

/-- Embeds the loop body of `MarkBackendUnhealthy`: walk the slice and clear
the alive flag of the first backend whose address equals the target, then
return. -/
def markFirstUnhealthy : List Backend → String → List Backend
  | [], _ => []
  | b :: rest, target =>
    if b.Address = target then { b with IsAlive := false } :: rest
    else b :: markFirstUnhealthy rest target

/-- Embeds `MarkBackendUnhealthy` (the cursor is untouched by the source). -/
def MarkBackendUnhealthy (lb : RoundRobinLoadBalancer) (target : String) :
    RoundRobinLoadBalancer :=
  { lb with backends := markFirstUnhealthy lb.backends target }

/-- Runs `NextAvailableBackend` a given number of times, threading the
balancer state; collects the selections in call order. -/
def selectSeq (lb : RoundRobinLoadBalancer) :
    Nat → List (Option Backend) × RoundRobinLoadBalancer
  | 0 => ([], lb)
  | n + 1 =>
    let (lb1, r) := NextAvailableBackend lb
    let (rs, lb2) := selectSeq lb1 n
    (r :: rs, lb2)

/-- Helper: a selection loop over backends that are all dead finds nothing,
whatever the cursor and fuel. -/
theorem nextAvailLoop_dead (backends : List Backend) (total : Nat)
    (hdead : ∀ b ∈ backends, b.IsAlive = false) :
    ∀ (fuel cursor : Nat), (nextAvailLoop backends total cursor fuel).2 = none := by
  intro fuel
  induction fuel with
  | zero => intro cursor; rfl
  | succ fuel ih =>
    intro cursor
    simp only [nextAvailLoop]
    cases hget : backends.get? (((cursor + 1) % U32) % total) with
    | none => rfl
    | some candidate =>
      have hmem : candidate ∈ backends := List.get?_mem hget
      simp [hdead candidate hmem, ih ((cursor + 1) % U32)]

/-- C6: with an empty pool the selector returns `none` and leaves the whole
balancer state (cursor included) unchanged — the `cursor mod N` computation
of the loop body is never reached, so no division by zero occurs; and with
no backend alive every call returns `none`, whatever the cursor value. -/
theorem c6_selector_none (lb : RoundRobinLoadBalancer) :
    (lb.backends = [] → NextAvailableBackend lb = (lb, none))
    ∧ ((∀ b ∈ lb.backends, b.IsAlive = false) →
        (NextAvailableBackend lb).2 = none) := by
  constructor
  · intro hempty
    obtain ⟨bs, c⟩ := lb
    simp only at hempty
    subst hempty
    rfl
  · intro hdead
    simp only [NextAvailableBackend]
    exact nextAvailLoop_dead lb.backends lb.backends.length hdead
      lb.backends.length lb.currentIndex

/-- Helper: with a nonempty, all-alive pool and no uint32 wrap on this
increment, one loop entry succeeds at the first attempt: the cursor advances
exactly once and the backend at `(cursor + 1) mod N` is returned. -/
theorem nextAvailLoop_alive_step (bs : List Backend) (N fuel cursor : Nat)
    (hN : bs.length = N) (halive : ∀ b ∈ bs, b.IsAlive = true)
    (hpos : 0 < N) (hc : cursor + 1 < U32) :
    nextAvailLoop bs N cursor (fuel + 1)
      = (cursor + 1, bs.get? ((cursor + 1) % N)) := by
  have hmod : (cursor + 1) % U32 = cursor + 1 := Nat.mod_eq_of_lt hc
  have hidx : (cursor + 1) % N < bs.length := by
    rw [hN]; exact Nat.mod_lt _ hpos
  obtain ⟨b, hb⟩ : ∃ b, bs.get? ((cursor + 1) % N) = some b := by
    rw [List.get?_eq_get hidx]; exact ⟨_, rfl⟩
  rw [hb]
  simp only [nextAvailLoop, hmod, hb]
  rw [halive b (List.get?_mem hb)]
  simp

/-- Helper: one full selection over a nonempty, all-alive pool, below the
uint32 wrap. -/
theorem next_all_alive (bs : List Backend) (c N : Nat) (hN : bs.length = N)
    (hpos : 0 < N) (halive : ∀ b ∈ bs, b.IsAlive = true) (hc : c + 1 < U32) :
    NextAvailableBackend ⟨bs, c⟩ = (⟨bs, c + 1⟩, bs.get? ((c + 1) % N)) := by
  obtain ⟨m, hm⟩ : ∃ m, N = m + 1 := ⟨N - 1, by omega⟩
  subst hm
  simp only [NextAvailableBackend]
  rw [hN]
  rw [nextAvailLoop_alive_step bs (m + 1) m c hN halive (by omega) hc]

/-- Helper: `n` consecutive selections over a nonempty, all-alive pool whose
cursor never wraps visit the backends at indices `(c + 1 + k) mod N` for
`k = 0, …, n - 1`, advancing the cursor by exactly one per call. -/
theorem selectSeq_all_alive (bs : List Backend) (N : Nat) (hN : bs.length = N)
    (hpos : 0 < N) (halive : ∀ b ∈ bs, b.IsAlive = true) :
    ∀ (n c : Nat), c + n < U32 →
      (selectSeq ⟨bs, c⟩ n).1
          = (List.range n).map (fun k => bs.get? ((c + 1 + k) % N))
      ∧ (selectSeq ⟨bs, c⟩ n).2 = ⟨bs, c + n⟩ := by
  intro n
  induction n with
  | zero =>
    intro c _
    exact ⟨rfl, rfl⟩
  | succ n ih =>
    intro c hc
    have hstep := next_all_alive bs c N hN hpos halive (by omega)
    obtain ⟨ih1, ih2⟩ := ih (c + 1) (by omega)
    constructor
    · show (selectSeq ⟨bs, c⟩ (n + 1)).1 = _
      simp only [selectSeq, hstep]
      rw [ih1, List.range_succ_eq_map, List.map_cons, List.map_map]
      congr 1
      apply List.map_congr_left
      intro k _
      have h3 : c + 1 + 1 + k = c + 1 + (k + 1) := by omega
      simp [Function.comp, h3]
    · show (selectSeq ⟨bs, c⟩ (n + 1)).2 = _
      simp only [selectSeq, hstep]
      rw [ih2]
      have : c + 1 + n = c + (n + 1) := by omega
      rw [this]

/-- Helper: the round-robin index map `k ↦ (c + 1 + k) mod N` is injective on
`k < N`. -/
theorem rrIndex_inj (c N k1 k2 : Nat) (hk1 : k1 < N) (hk2 : k2 < N)
    (h : (c + 1 + k1) % N = (c + 1 + k2) % N) : k1 = k2 := by
  have h4 : k1 % N = k2 % N := Nat.ModEq.add_left_cancel' (c + 1) h
  rwa [Nat.mod_eq_of_lt hk1, Nat.mod_eq_of_lt hk2] at h4

/-- C5 (amended): with `N ≥ 1` backends, all alive and unchanged in between,
and the uint32 cursor not wrapping during the `N` calls
(`start + N < 2 ^ 32`), `N` consecutive selections return the backends at
indices `(start + 1 + k) mod N` for `k = 0, …, N - 1` — an order fixed by the
starting cursor, hitting each of the `N` pool slots exactly once (the index
map is injective and surjective on `k < N`) — and the shared cursor advances
by exactly one per selection, `N` in total. The claim as frozen omits the
no-wrap hypothesis and is refuted at a wrapping cursor by
`c5_wraparound_repeats`. -/
theorem c5_round_robin_coverage (lb : RoundRobinLoadBalancer) (N : Nat)
    (hN : lb.backends.length = N) (hpos : 1 ≤ N)
    (halive : ∀ b ∈ lb.backends, b.IsAlive = true)
    (hwrap : lb.currentIndex + N < U32) :
    (selectSeq lb N).1
        = (List.range N).map
            (fun k => lb.backends.get? ((lb.currentIndex + 1 + k) % N))
    ∧ (∀ k1 k2, k1 < N → k2 < N →
        (lb.currentIndex + 1 + k1) % N = (lb.currentIndex + 1 + k2) % N →
        k1 = k2)
    ∧ (∀ i, i < N → ∃ k, k < N ∧ (lb.currentIndex + 1 + k) % N = i)
    ∧ (selectSeq lb N).2.currentIndex = lb.currentIndex + N := by
  obtain ⟨bs, c⟩ := lb
  obtain ⟨h1, h2⟩ := selectSeq_all_alive bs N hN (by omega) halive N c hwrap
  refine ⟨h1, ?_, ?_, by rw [h2]⟩
  · intro k1 k2 hk1 hk2 heq
    exact rrIndex_inj c N k1 k2 hk1 hk2 heq
  · intro i hi
    have hinj : Set.InjOn (fun k => (c + 1 + k) % N) (Finset.range N) := by
      intro a ha b hb hab
      exact rrIndex_inj c N a b (Finset.mem_range.mp ha) (Finset.mem_range.mp hb) hab
    have hsub : (Finset.range N).image (fun k => (c + 1 + k) % N)
        ⊆ Finset.range N := by
      intro x hx
      obtain ⟨k, _, hk⟩ := Finset.mem_image.mp hx
      rw [Finset.mem_range, ← hk]
      exact Nat.mod_lt _ (by omega)
    have hcard : ((Finset.range N).image (fun k => (c + 1 + k) % N)).card = N := by
      rw [Finset.card_image_of_injOn hinj, Finset.card_range]
    have heqset : (Finset.range N).image (fun k => (c + 1 + k) % N)
        = Finset.range N :=
      Finset.eq_of_subset_of_card_le hsub (by rw [hcard, Finset.card_range])
    have hmem : i ∈ (Finset.range N).image (fun k => (c + 1 + k) % N) := by
      rw [heqset]
      exact Finset.mem_range.mpr hi
    obtain ⟨k, hk, hfk⟩ := Finset.mem_image.mp hmem
    exact ⟨k, Finset.mem_range.mp hk, hfk⟩

/-- Concrete pool for the C5 witness: three alive backends, cursor 5. -/
def c5wPool : RoundRobinLoadBalancer :=
  ⟨[⟨"http://a", true⟩, ⟨"http://b", true⟩, ⟨"http://c", true⟩], 5⟩

/-- Witness for C5: on a concrete all-alive pool of 3 backends with cursor 5,
three selections advance the cursor to exactly 8. -/
theorem c5_round_robin_coverage_witness :
    (selectSeq c5wPool 3).2.currentIndex = c5wPool.currentIndex + 3 :=
  (c5_round_robin_coverage c5wPool 3 rfl (by norm_num) (by decide)
    (by decide)).2.2.2

/-- Concrete pool for the C5 counterexample: three alive backends with the
shared uint32 cursor two increments before its wrap. -/
def c5xPool : RoundRobinLoadBalancer :=
  ⟨[⟨"http://b0", true⟩, ⟨"http://b1", true⟩, ⟨"http://b2", true⟩], U32 - 2⟩

/-- Counterexample to C5 as frozen: all three backends of `c5xPool` are
alive, yet the three consecutive selections return backend b0 twice and
never return b2, because `atomic.AddUint32` wraps the cursor to 0 between
the first and second call and 2 ^ 32 is not a multiple of 3. -/
theorem c5_wraparound_repeats :
    (∀ b ∈ c5xPool.backends, b.IsAlive = true)
    ∧ c5xPool.backends.length = 3
    ∧ (selectSeq c5xPool 3).1
        = [some ⟨"http://b0", true⟩, some ⟨"http://b0", true⟩,
           some ⟨"http://b1", true⟩]
    ∧ (selectSeq c5xPool 3).1.count (some ⟨"http://b2", true⟩) = 0 := by
  decide

/-- Helper: marking never changes the address sequence of the pool. -/
theorem markFirst_map_address (bs : List Backend) (target : String) :
    (markFirstUnhealthy bs target).map Backend.Address
      = bs.map Backend.Address := by
  induction bs with
  | nil => rfl
  | cons b0 rest ih =>
    simp only [markFirstUnhealthy]
    split
    · rfl
    · simp only [List.map_cons, ih]

/-- Helper: slot-wise effect of marking in a pool with pairwise distinct
addresses: a matching slot ends up dead, a non-matching slot is untouched. -/
theorem markFirst_get (bs : List Backend) (target : String)
    (hnodup : (bs.map Backend.Address).Nodup) :
    ∀ (i : Nat) (b b2 : Backend), bs.get? i = some b →
      (markFirstUnhealthy bs target).get? i = some b2 →
      (b.Address = target → b2.IsAlive = false)
      ∧ (b.Address ≠ target → b2 = b) := by
  induction bs with
  | nil =>
    intro i b b2 hget _
    simp at hget
  | cons b0 rest ih =>
    intro i b b2 hget hget2
    rw [List.map_cons, List.nodup_cons] at hnodup
    by_cases h0 : b0.Address = target
    · have hmark : markFirstUnhealthy (b0 :: rest) target
          = { b0 with IsAlive := false } :: rest := by
        simp [markFirstUnhealthy, h0]
      rw [hmark] at hget2
      cases i with
      | zero =>
        simp only [List.get?_cons_zero, Option.some.injEq] at hget hget2
        subst hget
        subst hget2
        exact ⟨fun _ => rfl, fun hne => absurd h0 hne⟩
      | succ j =>
        simp only [List.get?_cons_succ] at hget hget2
        have hb2 : b2 = b := by
          rw [hget] at hget2
          exact (Option.some.inj hget2).symm
        refine ⟨?_, fun _ => hb2⟩
        intro hbt
        exfalso
        have hmem : b ∈ rest := List.get?_mem hget
        exact hnodup.1 (List.mem_map.mpr ⟨b, hmem, by rw [hbt, h0]⟩)
    · have hmark : markFirstUnhealthy (b0 :: rest) target
          = b0 :: markFirstUnhealthy rest target := by
        simp [markFirstUnhealthy, h0]
      rw [hmark] at hget2
      cases i with
      | zero =>
        simp only [List.get?_cons_zero, Option.some.injEq] at hget hget2
        subst hget
        subst hget2
        exact ⟨fun hbt => absurd hbt h0, fun _ => rfl⟩
      | succ j =>
        simp only [List.get?_cons_succ] at hget hget2
        exact ih hnodup.2 j b b2 hget hget2

/-- Helper: marking the same address twice equals marking it once. -/
theorem markFirst_idem (bs : List Backend) (target : String) :
    markFirstUnhealthy (markFirstUnhealthy bs target) target
      = markFirstUnhealthy bs target := by
  induction bs with
  | nil => rfl
  | cons b0 rest ih =>
    by_cases h0 : b0.Address = target
    · simp [markFirstUnhealthy, h0]
    · simp [markFirstUnhealthy, h0, ih]

/-- Helper: marking an address no backend carries changes nothing. -/
theorem markFirst_absent (bs : List Backend) (target : String)
    (h : ∀ b ∈ bs, b.Address ≠ target) :
    markFirstUnhealthy bs target = bs := by
  induction bs with
  | nil => rfl
  | cons b0 rest ih =>
    simp only [markFirstUnhealthy, if_neg (h b0 (List.mem_cons_self b0 rest))]
    rw [ih fun b hb => h b (List.mem_cons_of_mem b0 hb)]

/-- C7: `MarkBackendUnhealthy` keeps the pool's address sequence and the
cursor; in a pool of pairwise distinct addresses it sets alive=false on the
slot whose address equals the target and leaves every other slot exactly as
it was; it is idempotent; and it is a no-op on the whole balancer when no
backend carries the target address. -/
theorem c7_mark_unhealthy_frame (lb : RoundRobinLoadBalancer) (target : String)
    (hnodup : (lb.backends.map Backend.Address).Nodup) :
    ((MarkBackendUnhealthy lb target).backends.map Backend.Address
        = lb.backends.map Backend.Address)
    ∧ (MarkBackendUnhealthy lb target).currentIndex = lb.currentIndex
    ∧ (∀ (i : Nat) (b b2 : Backend), lb.backends.get? i = some b →
        (MarkBackendUnhealthy lb target).backends.get? i = some b2 →
        (b.Address = target → b2.IsAlive = false)
        ∧ (b.Address ≠ target → b2 = b))
    ∧ MarkBackendUnhealthy (MarkBackendUnhealthy lb target) target
        = MarkBackendUnhealthy lb target
    ∧ ((∀ b ∈ lb.backends, b.Address ≠ target) →
        MarkBackendUnhealthy lb target = lb) := by
  refine ⟨markFirst_map_address _ _, rfl, markFirst_get _ _ hnodup, ?_, ?_⟩
  · simp only [MarkBackendUnhealthy]
    rw [markFirst_idem]
  · intro habs
    simp only [MarkBackendUnhealthy]
    rw [markFirst_absent _ _ habs]

/-- Concrete pool for the C7 witness: two alive backends with distinct
addresses. -/
def c7Pool : RoundRobinLoadBalancer :=
  ⟨[⟨"http://a", true⟩, ⟨"http://b", true⟩], 7⟩

/-- Witness for C7: marking http://a unhealthy twice in the concrete pool
equals marking it once. -/
theorem c7_mark_unhealthy_frame_witness :
    MarkBackendUnhealthy (MarkBackendUnhealthy c7Pool "http://a") "http://a"
      = MarkBackendUnhealthy c7Pool "http://a" :=
  (c7_mark_unhealthy_frame c7Pool "http://a" (by decide)).2.2.2.1

/-! ## Rate-limiter registry (package ratelimiter) -/

/-- Embeds Go struct `ClientLimit`: a per-client override of the bucket
parameters. -/
structure ClientLimit where
  Capacity : Int
  RefillRate : Int
deriving DecidableEq

/-- Association-list lookup modelling a read of a Go `map[string]·`. -/
def lookupAssoc {α : Type} : List (String × α) → String → Option α
  | [], _ => none
  | (k0, v0) :: rest, k => if k0 = k then some v0 else lookupAssoc rest k

/-- Association-list store modelling a write `m[k] = v` to a Go `map`:
replaces the existing binding or appends a new one. -/
def setAssoc {α : Type} : List (String × α) → String → α → List (String × α)
  | [], k, v => [(k, v)]
  | (k0, v0) :: rest, k, v =>
    if k0 = k then (k0, v) :: rest else (k0, v0) :: setAssoc rest k v

/-- Embeds Go struct `RateLimiter`: the per-client buckets, the per-client
override limits, and the process-wide defaults (the two mutexes carry no
sequential content and are dropped). -/
structure RateLimiter where
  buckets : List (String × TokenBucket)
  clientLimits : List (String × ClientLimit)
  defaultCapacity : Int
  defaultRefillRate : Int
deriving DecidableEq

/-- Embeds `NewRateLimiter`: empty maps, the given defaults. -/
def NewRateLimiter (capacity refillRate : Int) : RateLimiter :=
  ⟨[], [], capacity, refillRate⟩

/-- Embeds `RateLimiter.SetClientLimit`. -/
def RateLimiter.SetClientLimit (rl : RateLimiter) (clientID : String)
    (limit : ClientLimit) : RateLimiter :=
  { rl with clientLimits := setAssoc rl.clientLimits clientID limit }

/-- Embeds `RateLimiter.getBucket` as the sequential composition of its two
critical sections: return the existing bucket, or create one from the
client's override limit (the defaults when none is registered) and store it. -/
def RateLimiter.getBucket (rl : RateLimiter) (clientID : String) (now : ℚ) :
    RateLimiter × TokenBucket :=
  match lookupAssoc rl.buckets clientID with
  | some bucket => (rl, bucket)
  | none =>
    let limit : ClientLimit :=
      match lookupAssoc rl.clientLimits clientID with
      | some l => l
      | none => ⟨rl.defaultCapacity, rl.defaultRefillRate⟩
    let bucket := NewTokenBucket limit.Capacity limit.RefillRate now
    ({ rl with buckets := setAssoc rl.buckets clientID bucket }, bucket)

/-- Embeds `RateLimiter.Allow`: fetch (or create) the client's bucket, run
its admission check, and write the mutated bucket back (in Go the map holds
a pointer, so the mutation is visible through the map). -/
def RateLimiter.Allow (rl : RateLimiter) (clientID : String) (now : ℚ) :
    RateLimiter × Bool :=
  let (rl1, bucket) := rl.getBucket clientID now
  let (bucket1, ok) := bucket.Allow now
  ({ rl1 with buckets := setAssoc rl1.buckets clientID bucket1 }, ok)

/-- Embeds `RateLimiter.Cleanup`: drop every bucket whose `lastSeen` is more
than `expiration` seconds in the past; everything else is untouched. -/
def RateLimiter.Cleanup (rl : RateLimiter) (expiration now : ℚ) : RateLimiter :=
  { rl with buckets :=
      rl.buckets.filter fun p => decide (now - p.2.lastSeen ≤ expiration) }

/-- C10: the cleanup sweep mutates only the client-to-bucket map — the
per-client override limits and the process-wide defaults survive verbatim —
so a client whose bucket was evicted gets, on its next admission check, a
fresh bucket that starts full and is sized by that client's registered
override, or by the current defaults when none is registered. -/
theorem c10_cleanup_frame (rl : RateLimiter) (expiration now t : ℚ)
    (clientID : String) :
    (rl.Cleanup expiration now).clientLimits = rl.clientLimits
    ∧ (rl.Cleanup expiration now).defaultCapacity = rl.defaultCapacity
    ∧ (rl.Cleanup expiration now).defaultRefillRate = rl.defaultRefillRate
    ∧ (lookupAssoc (rl.Cleanup expiration now).buckets clientID = none →
        ((rl.Cleanup expiration now).getBucket clientID t).2.Tokens
            = ((rl.Cleanup expiration now).getBucket clientID t).2.Capacity
        ∧ ((rl.Cleanup expiration now).getBucket clientID t).2.Capacity
            = (match lookupAssoc rl.clientLimits clientID with
               | some l => l.Capacity
               | none => rl.defaultCapacity)
        ∧ ((rl.Cleanup expiration now).getBucket clientID t).2.RefillRate
            = (match lookupAssoc rl.clientLimits clientID with
               | some l => l.RefillRate
               | none => rl.defaultRefillRate)) := by
  refine ⟨rfl, rfl, rfl, ?_⟩
  intro hmiss
  simp only [RateLimiter.getBucket, hmiss]
  cases hlim : lookupAssoc rl.clientLimits clientID with
  | none => simp [RateLimiter.Cleanup, hlim, NewTokenBucket]
  | some l => simp [RateLimiter.Cleanup, hlim, NewTokenBucket]

/-! ## Client identity extraction (packages ratelimiter and proxy)

Strings are modelled with explicit structural recursion over their character
lists so that they evaluate inside the kernel. `goTrimSpace` models Go's
`strings.TrimSpace` on the ASCII whitespace the claims exercise;
`splitHostPortHost` models the host result of Go's `net.SplitHostPort`, with
every error path of that function yielding `""` exactly as the callers (which
ignore the error) observe. -/

/-- The ASCII whitespace recognized by the `strings.TrimSpace` model. -/
def isSpaceChar (c : Char) : Bool :=
  c = ' ' || c = '\t' || c = '\n' || c = '\r'

/-- Drops leading whitespace from a character list. -/
def trimLeftChars : List Char → List Char
  | [] => []
  | c :: cs => if isSpaceChar c then trimLeftChars cs else c :: cs

/-- Models `strings.TrimSpace`: drop leading and trailing whitespace. -/
def goTrimSpace (s : String) : String :=
  ⟨(trimLeftChars (trimLeftChars s.data).reverse).reverse⟩

/-- Splits a character list at every occurrence of a separator; never returns
an empty list, like Go's `strings.Split` with a non-empty separator. -/
def splitOnChar (sep : Char) : List Char → List (List Char)
  | [] => [[]]
  | c :: cs =>
    match splitOnChar sep cs with
    | [] => [[]]
    | r :: rs => if c = sep then [] :: r :: rs else (c :: r) :: rs

/-- Models `strings.Split(s, sep)` for a one-character separator. -/
def goSplit (s : String) (sep : Char) : List String :=
  (splitOnChar sep s.data).map fun l => ⟨l⟩

/-- Joins character lists with a separator (inverse of `splitOnChar` on the
dropped prefix of an address). -/
def joinChar (sep : Char) : List (List Char) → List Char
  | [] => []
  | [l] => l
  | l :: ls => l ++ sep :: joinChar sep ls

/-- Models the host result of Go's `net.SplitHostPort`: the part before the
last colon, brackets stripped for a bracketed IPv6 literal; `""` on every
error (no colon, too many colons), which is what the callers — they discard
the error — end up with. -/
def splitHostPortHost (s : String) : String :=
  match splitOnChar ':' s.data with
  | [] => ""
  | [_] => ""
  | parts =>
    let host := joinChar ':' parts.dropLast
    match host with
    | '[' :: inner =>
      if inner.getLast? = some ']' then ⟨inner.dropLast⟩ else ""
    | _ => if host.contains ':' then "" else ⟨host⟩

/-- The request metadata the identity functions read. Go's `Header.Get`
returns `""` for an absent header, so a header value is a plain string with
`""` meaning absent-or-empty. -/
structure Request where
  xRealIP : String
  xForwardedFor : String
  remoteAddr : String
deriving DecidableEq

/-- Embeds `extractClientIP` (ratelimiter middleware, the identity function
of the admission path): X-Real-IP if non-empty, else the X-Forwarded-For
value as a whole, else the host of RemoteAddr; the result is trimmed. -/
def extractClientIP (r : Request) : String :=
  let ip0 := r.xRealIP
  let ip1 := if ip0 = "" then r.xForwardedFor else ip0
  let ip2 := if ip1 = "" then splitHostPortHost r.remoteAddr else ip1
  goTrimSpace ip2

/-- Embeds `getClientIP` (proxy package, used by the forwarding handler for
logging): like `extractClientIP` but taking only the first comma-separated
entry of X-Forwarded-For, and trimming each branch's result. -/
def getClientIP (r : Request) : String :=
  if r.xRealIP ≠ "" then goTrimSpace r.xRealIP
  else if r.xForwardedFor ≠ "" then
    goTrimSpace ((goSplit r.xForwardedFor ',').headD "")
  else goTrimSpace (splitHostPortHost r.remoteAddr)

/-- Request exercising the X-Forwarded-For branch with a two-hop header. -/
def c1Request : Request :=
  ⟨"", "10.0.0.1, 10.0.0.2", "192.168.0.9:443"⟩

/-- Counterexample to C1 as frozen: on the rate-limiter admission path the
identity function passes the X-Forwarded-For header through whole — it does
not take the first comma-separated entry (only the proxy-side `getClientIP`
does). -/
theorem c1_forwarded_for_not_split :
    extractClientIP c1Request = "10.0.0.1, 10.0.0.2"
    ∧ extractClientIP c1Request ≠ "10.0.0.1"
    ∧ getClientIP c1Request = "10.0.0.1" := by
  decide

/-- C1 (amended): the identity function consulted by the rate-limiter
admission path derives the client identifier with this precedence: the
X-Real-IP value when non-empty; otherwise the whole X-Forwarded-For value
when non-empty (not its first comma-separated entry); otherwise the host
portion of the raw connection address — and the result is
whitespace-trimmed. -/
theorem c1_client_ip_precedence (r : Request) :
    (r.xRealIP ≠ "" → extractClientIP r = goTrimSpace r.xRealIP)
    ∧ (r.xRealIP = "" → r.xForwardedFor ≠ "" →
        extractClientIP r = goTrimSpace r.xForwardedFor)
    ∧ (r.xRealIP = "" → r.xForwardedFor = "" →
        extractClientIP r = goTrimSpace (splitHostPortHost r.remoteAddr)) := by
  refine ⟨?_, ?_, ?_⟩
  · intro h1
    simp [extractClientIP, h1]
  · intro h1 h2
    simp [extractClientIP, h1, h2]
  · intro h1 h2
    simp [extractClientIP, h1, h2]

/-! ## Failure responses and the per-request dispatch (package proxy) -/

/-- The observable pieces of an HTTP error response: status code, the
Content-Type header, and the body. -/
structure HttpResponse where
  status : Nat
  contentType : String
  body : String
deriving DecidableEq

/-- The escaping Go's `encoding/json` applies to the message strings the
program uses (quote and backslash; none of the call sites contain the HTML
characters that Go additionally escapes). -/
def jsonEscapeChar (c : Char) : List Char :=
  if c = '"' then ['\\', '"'] else if c = '\\' then ['\\', '\\'] else [c]

/-- JSON string escaping, character by character. -/
def jsonEscape (s : String) : String :=
  ⟨(s.data.map jsonEscapeChar).flatten⟩

/-- The body `json.NewEncoder(w).Encode(errorResponse{...})` writes: the
object with the `code` and `message` fields, followed by the encoder's
newline. -/
def jsonErrorBody (code : Nat) (message : String) : String :=
  "\x7b\"code\":" ++ toString code ++ ",\"message\":\""
    ++ jsonEscape message ++ "\"\x7d" ++ "\n"

/-- Embeds `sendJSONError`: JSON content type, encoded error object. -/
def sendJSONError (statusCode : Nat) (message : String) : HttpResponse :=
  { status := statusCode
    contentType := "application/json"
    body := jsonErrorBody statusCode message }

/-- Models Go's `http.Error`: plain-text content type, the message plus a
newline. -/
def goHttpError (message : String) (statusCode : Nat) : HttpResponse :=
  { status := statusCode
    contentType := "text/plain; charset=utf-8"
    body := message ++ "\n" }

/-- Embeds `RateLimitMiddleware`: identify the client with
`extractClientIP`, consult the limiter, and on denial answer 429 through
`http.Error`; `none` means the request passes on to the proxy handler. -/
def RateLimitMiddleware (rl : RateLimiter) (r : Request) (now : ℚ) :
    RateLimiter × Option HttpResponse :=
  let clientID := extractClientIP r
  let (rl1, ok) := rl.Allow clientID now
  if ok then (rl1, none)
  else (rl1, some (goHttpError "Rate limit exceeded" 429))

/-- Embeds `handleProxy` past the middleware: select a backend (503 when none
is available); forwarding is the black-box `transportOk` — on a transport
error the backend is marked unhealthy and the client gets 503; `none` stands
for the relayed backend response. -/
def handleProxy (lb : RoundRobinLoadBalancer) (transportOk : Bool) :
    RoundRobinLoadBalancer × Option HttpResponse :=
  match NextAvailableBackend lb with
  | (lb1, none) => (lb1, some (sendJSONError 503 "No available backends"))
  | (lb1, some target) =>
    if transportOk then (lb1, none)
    else (MarkBackendUnhealthy lb1 target.Address,
          some (sendJSONError 503 "Backend unavailable"))

/-- The per-request pipeline the server installs: rate-limit middleware in
front of the proxy handler. -/
def processRequest (rl : RateLimiter) (lb : RoundRobinLoadBalancer)
    (r : Request) (now : ℚ) (transportOk : Bool) :
    RateLimiter × RoundRobinLoadBalancer × Option HttpResponse :=
  match RateLimitMiddleware rl r now with
  | (rl1, some resp) => (rl1, lb, some resp)
  | (rl1, none) =>
    let (lb1, resp) := handleProxy lb transportOk
    (rl1, lb1, resp)

/-- C2 (amended): a denied admission is answered with status 429 as plain
text (`http.Error` with body `Rate limit exceeded`), not with a JSON body;
the 503 rejections — no backend available, transport failure — are JSON
objects of the form `{"code":503,"message":...}` as claimed. -/
theorem c2_failure_responses (rl : RateLimiter) (lb : RoundRobinLoadBalancer)
    (r : Request) (now : ℚ) (transportOk : Bool) :
    ((rl.Allow (extractClientIP r) now).2 = false →
      (processRequest rl lb r now transportOk).2.2
        = some (goHttpError "Rate limit exceeded" 429))
    ∧ ((rl.Allow (extractClientIP r) now).2 = true →
        (NextAvailableBackend lb).2 = none →
        (processRequest rl lb r now transportOk).2.2
          = some (sendJSONError 503 "No available backends"))
    ∧ (∀ target : Backend, (rl.Allow (extractClientIP r) now).2 = true →
        (NextAvailableBackend lb).2 = some target → transportOk = false →
        (processRequest rl lb r now transportOk).2.2
          = some (sendJSONError 503 "Backend unavailable"))
    ∧ goHttpError "Rate limit exceeded" 429
        = ⟨429, "text/plain; charset=utf-8", "Rate limit exceeded\n"⟩
    ∧ (∀ m : String, sendJSONError 503 m
        = ⟨503, "application/json",
           "\x7b\"code\":503,\"message\":\"" ++ jsonEscape m ++ "\"\x7d" ++ "\n"⟩) := by
  refine ⟨?_, ?_, ?_, rfl, fun m => rfl⟩
  · intro hdeny
    rcases hA : rl.Allow (extractClientIP r) now with ⟨rl1, ok⟩
    rw [hA] at hdeny
    simp only at hdeny
    subst hdeny
    simp [processRequest, RateLimitMiddleware, hA]
  · intro hallow hnone
    rcases hA : rl.Allow (extractClientIP r) now with ⟨rl1, ok⟩
    rw [hA] at hallow
    simp only at hallow
    subst hallow
    rcases hB : NextAvailableBackend lb with ⟨lb1, res⟩
    rw [hB] at hnone
    simp only at hnone
    subst hnone
    simp [processRequest, RateLimitMiddleware, handleProxy, hA, hB]
  · intro target hallow hsome hfail
    rcases hA : rl.Allow (extractClientIP r) now with ⟨rl1, ok⟩
    rw [hA] at hallow
    simp only at hallow
    subst hallow
    rcases hB : NextAvailableBackend lb with ⟨lb1, res⟩
    rw [hB] at hsome
    simp only at hsome
    subst hsome
    subst hfail
    simp [processRequest, RateLimitMiddleware, handleProxy, hA, hB]

/-- Helper: every body `sendJSONError` can produce opens with a brace. -/
theorem jsonErrorBody_head (code : Nat) (message : String) :
    (jsonErrorBody code message).data.head? = some '\x7b' := by
  rfl

/-- Concrete limiter whose only client holds an empty bucket. -/
def c2Limiter : RateLimiter :=
  ⟨[("9.9.9.9", ⟨5, 0, 1, 0, 0⟩)], [], 5, 1⟩

/-- Concrete request identifying as that client. -/
def c2Request : Request := ⟨"9.9.9.9", "", "9.9.9.9:1234"⟩

/-- Concrete pool with one alive backend (so only the bucket denies). -/
def c2Pool : RoundRobinLoadBalancer := ⟨[⟨"http://backend1", true⟩], 0⟩

/-- Counterexample to C2 as frozen: the request rejected for an empty bucket
is answered through `http.Error` — status 429, `text/plain` content type,
body `Rate limit exceeded` — which is not the claimed JSON object
`{"code":...,"message":...}` for any code and message. -/
theorem c2_rate_limit_body_not_json :
    (processRequest c2Limiter c2Pool c2Request 0 true).2.2
        = some (goHttpError "Rate limit exceeded" 429)
    ∧ (goHttpError "Rate limit exceeded" 429).contentType ≠ "application/json"
    ∧ ¬ (∃ (code : Nat) (message : String),
          (goHttpError "Rate limit exceeded" 429).body
            = jsonErrorBody code message) := by
  refine ⟨?_, by decide, ?_⟩
  · have hid : extractClientIP c2Request = "9.9.9.9" := by decide
    have hbucket : c2Limiter.getBucket "9.9.9.9" 0
        = (c2Limiter, ⟨5, 0, 1, 0, 0⟩) := by
      simp [RateLimiter.getBucket, lookupAssoc, c2Limiter]
    have hb : TokenBucket.Allow ⟨5, 0, 1, 0, 0⟩ 0 = (⟨5, 0, 1, 0, 0⟩, false) := by
      norm_num [TokenBucket.Allow, TokenBucket.refill, goTrunc]
    have hA : c2Limiter.Allow "9.9.9.9" 0 = (c2Limiter, false) := by
      simp only [RateLimiter.Allow, hbucket, hb]
      simp [c2Limiter, setAssoc]
    simp [processRequest, RateLimitMiddleware, hid, hA]
  · rintro ⟨code, message, h⟩
    have h2 : (("Rate limit exceeded" : String) ++ "\n").data.head?
        = (jsonErrorBody code message).data.head? := by
      rw [← h]
      rfl
    rw [jsonErrorBody_head] at h2
    have h3 : (("Rate limit exceeded" : String) ++ "\n").data.head?
        = some 'R' := rfl
    rw [h3] at h2
    exact absurd h2 (by decide)

/-! ## Interleaving model of `getBucket` (claim C9)

Go's `getBucket` is two separate critical sections: a read under `RLock`
(`bucket, exists := rl.buckets[clientID]`, then `RUnlock`) and, on a miss, a
create-and-store under `Lock` that does NOT re-check the map. Two goroutines
can both observe the miss before either takes the write lock; each then
creates and stores its own bucket (the second store overwrites the first) and
runs `Allow` against its own pointer. To express this, the map is modelled as
holding references into a heap of buckets, and the two critical sections are
separate atomic steps that an interleaving can order freely. -/

/-- Registry state with pointer indirection: `heap` holds the allocated
buckets, `bucketRefs` maps a client to the heap slot its `*TokenBucket`
points at. -/
structure RaceLimiterState where
  heap : List TokenBucket
  bucketRefs : List (String × Nat)
  clientLimits : List (String × ClientLimit)
  defaultCapacity : Int
  defaultRefillRate : Int
deriving DecidableEq

/-- Atomic step: the `RLock` read phase of `getBucket`. -/
def getBucketRead (s : RaceLimiterState) (clientID : String) : Option Nat :=
  lookupAssoc s.bucketRefs clientID

/-- Atomic step: the `Lock` create-and-store phase of `getBucket`, run by a
goroutine that observed a miss; as in the source, the map is not re-checked,
so an existing binding is overwritten. Returns the new state and the pointer
the goroutine keeps. -/
def getBucketCreate (s : RaceLimiterState) (clientID : String) (now : ℚ) :
    RaceLimiterState × Nat :=
  let limit : ClientLimit :=
    match lookupAssoc s.clientLimits clientID with
    | some l => l
    | none => ⟨s.defaultCapacity, s.defaultRefillRate⟩
  let ref := s.heap.length
  ({ s with
      heap := s.heap ++ [NewTokenBucket limit.Capacity limit.RefillRate now]
      bucketRefs := setAssoc s.bucketRefs clientID ref }, ref)

/-- Atomic step: `Allow` on the bucket a goroutine's pointer designates
(the per-bucket mutex makes this single step atomic). -/
def allowAtRef (s : RaceLimiterState) (ref : Nat) (now : ℚ) :
    RaceLimiterState × Bool :=
  match s.heap.get? ref with
  | none => (s, false)
  | some bucket =>
    let (bucket1, ok) := bucket.Allow now
    ({ s with heap := s.heap.set ref bucket1 }, ok)

/-- The racing interleaving: both goroutines read-miss on the fresh registry
(capacity 1), then A creates and consumes, then B creates (overwriting A's
binding) and consumes. -/
def c9RaceTrace : Bool × Bool :=
  let s0 : RaceLimiterState := ⟨[], [], [], 1, 1⟩
  let (s1, refA) := getBucketCreate s0 "c" 0
  let (s2, okA) := allowAtRef s1 refA 0
  let (s3, refB) := getBucketCreate s2 "c" 0
  let (_, okB) := allowAtRef s3 refB 0
  (okA, okB)

/-- C9 fails on the code: with default capacity 1, both racing goroutines
read a miss from the fresh registry, and the interleaved executions admit
both requests — 2 > min(2, 1) — while the the same two calls executed
atomically (the sequential embedding) admit exactly one. -/
theorem c9_race_over_admission :
    getBucketRead ⟨[], [], [], 1, 1⟩ "c" = none
    ∧ c9RaceTrace = (true, true)
    ∧ (((NewRateLimiter 1 1).Allow "c" 0).1.Allow "c" 0).2 = false := by
  have hb1 : TokenBucket.Allow ⟨1, 1, 1, 0, 0⟩ 0 = (⟨1, 0, 1, 0, 0⟩, true) := by
    norm_num [TokenBucket.Allow, TokenBucket.refill, goTrunc]
  have hb0 : TokenBucket.Allow ⟨1, 0, 1, 0, 0⟩ 0 = (⟨1, 0, 1, 0, 0⟩, false) := by
    norm_num [TokenBucket.Allow, TokenBucket.refill, goTrunc]
  refine ⟨rfl, ?_, ?_⟩
  · simp [c9RaceTrace, getBucketCreate, allowAtRef, lookupAssoc, setAssoc,
      NewTokenBucket, hb1]
  · have hget1 : (NewRateLimiter 1 1).getBucket "c" 0
        = (⟨[("c", ⟨1, 1, 1, 0, 0⟩)], [], 1, 1⟩, ⟨1, 1, 1, 0, 0⟩) := by
      simp [RateLimiter.getBucket, NewRateLimiter, lookupAssoc, setAssoc,
        NewTokenBucket]
    have hA1 : (NewRateLimiter 1 1).Allow "c" 0
        = (⟨[("c", ⟨1, 0, 1, 0, 0⟩)], [], 1, 1⟩, true) := by
      simp only [RateLimiter.Allow, hget1, hb1]
      simp [setAssoc]
    have hget2 : RateLimiter.getBucket ⟨[("c", ⟨1, 0, 1, 0, 0⟩)], [], 1, 1⟩ "c" 0
        = (⟨[("c", ⟨1, 0, 1, 0, 0⟩)], [], 1, 1⟩, ⟨1, 0, 1, 0, 0⟩) := by
      simp [RateLimiter.getBucket, lookupAssoc]
    rw [hA1]
    simp only [RateLimiter.Allow, hget2, hb0]

end LoadBalancer
